import Mathlib

/-!
Verification of the incremental crawl-and-merge pipeline of
`integrated_main.py` (Yahoo news scraper).  Python functions are shallowly
embedded as Lean functions over lists and strings; worksheet state is a list
of rows (each row a list of cells), and the external fetch collaborators
(HTTP, Selenium) are parameters supplying page payloads.
-/

/-! ## Configuration constants (設定 block of the source) -/

/-- `MAX_BODY_PAGES = 10` from the source. -/
def MAX_BODY_PAGES : Nat := 10

/-- `MAX_TOTAL_COMMENTS = 5000` from the source. -/
def MAX_TOTAL_COMMENTS : Nat := 5000

/-! ## `chunk` (cell packer)

Python:
```
def chunk(lst, size):
    if size <= 0:
        return [lst]
    return [lst[i:i + size] for i in range(0, len(lst), size)]
```
For `size > 0` the slice comprehension produces the successive
`size`-element slices of `lst` (last one possibly shorter, empty input
giving zero slices); `chunkPos` is that slicing written as structural
recursion on the list. -/

/-- Successive `n`-element slices of a list (`n ≥ 1` at every call site);
empty list yields no slices, mirroring `range(0, 0, size) = []`. -/
def chunkPos (n : Nat) : List String → List (List String)
  | [] => []
  | x :: xs => (x :: xs.take (n - 1)) :: chunkPos n (xs.drop (n - 1))
termination_by l => l.length
decreasing_by
  simp only [List.length_cons, List.length_drop]
  omega

/-- `chunk` from the source; `size` is an arbitrary Python int. -/
def chunk (lst : List String) (size : Int) : List (List String) :=
  if size ≤ 0 then [lst] else chunkPos size.toNat lst

/-! ## JSON cell encoding

`write_bodies_and_comments` stores each comment page as
`json.dumps(pg, ensure_ascii=False)`.  For a list of strings with the
default separators this emits `["s1", "s2", ...]` where every string is
quoted and the characters `"`, `\` and the controls below 0x20 are escaped
(`\n \r \t \b \f`, otherwise `\u00XX` lowercase hex); all other characters
pass through unchanged. -/

/-- Lowercase hex digit, as emitted by `json.dumps` for control characters. -/
def hexDigitChar (n : Nat) : Char :=
  if n < 10 then Char.ofNat (48 + n) else Char.ofNat (87 + n)

/-- Escape one character as `json.dumps` does. -/
def escapeChar (c : Char) : List Char :=
  if c = '\"' then ['\\', '\"']
  else if c = '\\' then ['\\', '\\']
  else if c = '\n' then ['\\', 'n']
  else if c = '\r' then ['\\', 'r']
  else if c = '\t' then ['\\', 't']
  else if c.toNat = 8 then ['\\', 'b']
  else if c.toNat = 12 then ['\\', 'f']
  else if c.toNat < 32 then
    ['\\', 'u', '0', '0', hexDigitChar (c.toNat / 16), hexDigitChar (c.toNat % 16)]
  else [c]

/-- Escape a whole string (character by character). -/
def escChars : List Char → List Char
  | [] => []
  | c :: cs => escapeChar c ++ escChars cs

/-- A JSON string literal: quote, escaped content, quote. -/
def quotedChars (s : List Char) : List Char :=
  '\"' :: (escChars s ++ ['\"'])

/-- `", " ++ literal` for each array element after the first
(`json.dumps` default item separator). -/
def encTailChars : List (List Char) → List Char
  | [] => []
  | x :: xs => ',' :: ' ' :: (quotedChars x ++ encTailChars xs)

/-- The elements of a JSON array body, separated by `", "`. -/
def encElemsChars : List (List Char) → List Char
  | [] => []
  | x :: xs => quotedChars x ++ encTailChars xs

/-- `json.dumps(l, ensure_ascii=False)` for a list of strings. -/
def jsonDumpsList (l : List String) : String :=
  String.mk ('[' :: (encElemsChars (l.map String.data) ++ [']']))

/-! ## JSON cell decoding

Modelled from the spec: the Cell Packer round-trip property speaks of
"decoding every produced cell"; the repository itself never calls
`json.loads`, so the decoder below models standard JSON parsing of an
array of strings (whitespace-tolerant, accepting the escape forms above
plus `\/`). -/

/-- Value of one hex digit (upper or lower case). -/
def hexVal (c : Char) : Option Nat :=
  if 48 ≤ c.toNat ∧ c.toNat ≤ 57 then some (c.toNat - 48)
  else if 97 ≤ c.toNat ∧ c.toNat ≤ 102 then some (c.toNat - 87)
  else if 65 ≤ c.toNat ∧ c.toNat ≤ 70 then some (c.toNat - 55)
  else none

/-- Single-character escapes accepted after a backslash. -/
def unescSimple (c : Char) : Option Char :=
  if c = '\"' then some '\"'
  else if c = '\\' then some '\\'
  else if c = '/' then some '/'
  else if c = 'b' then some (Char.ofNat 8)
  else if c = 'f' then some (Char.ofNat 12)
  else if c = 'n' then some '\n'
  else if c = 'r' then some '\r'
  else if c = 't' then some '\t'
  else none

/-- Modelled from the spec: parse the body of a JSON string literal up to
its closing quote, returning the decoded content and the remainder. -/
def parseStringBody : List Char → Option (List Char × List Char)
  | [] => none
  | c :: cs =>
    if c = '\"' then some ([], cs)
    else if c = '\\' then
      match cs with
      | [] => none
      | e :: cs2 =>
        if e = 'u' then
          match cs2 with
          | h1 :: h2 :: h3 :: h4 :: cs3 =>
            match hexVal h1, hexVal h2, hexVal h3, hexVal h4 with
            | some a, some b, some u, some v =>
              (parseStringBody cs3).map
                (fun p => (Char.ofNat (((a * 16 + b) * 16 + u) * 16 + v) :: p.1, p.2))
            | _, _, _, _ => none
          | _ => none
        else
          match unescSimple e with
          | some uc => (parseStringBody cs2).map (fun p => (uc :: p.1, p.2))
          | none => none
    else (parseStringBody cs).map (fun p => (c :: p.1, p.2))
termination_by cs => cs.length
decreasing_by
  all_goals simp only [List.length_cons]
  all_goals omega

/-- JSON insignificant whitespace. -/
def isJsonWs (c : Char) : Bool :=
  c == ' ' || c == '\t' || c == '\n' || c == '\r'

/-- Drop leading JSON whitespace. -/
def skipWs (cs : List Char) : List Char :=
  cs.dropWhile isJsonWs

/-- Modelled from the spec: parse the remaining `", <string>"` items of a
JSON string array, up to and including the closing bracket. -/
def parseMoreElems : Nat → List Char → Option (List (List Char) × List Char)
  | 0, _ => none
  | fuel + 1, cs =>
    match skipWs cs with
    | [] => none
    | c :: rest =>
      if c = ']' then some ([], rest)
      else if c = ',' then
        match skipWs rest with
        | [] => none
        | c2 :: rest2 =>
          if c2 = '\"' then
            match parseStringBody rest2 with
            | some (s, rest3) =>
              (parseMoreElems fuel rest3).map (fun p => (s :: p.1, p.2))
            | none => none
          else none
      else none

/-- Modelled from the spec: `json.loads` restricted to a JSON array of
strings; `none` on anything else. -/
def jsonLoadsList (str : String) : Option (List String) :=
  match skipWs str.data with
  | [] => none
  | c :: rest =>
    if c = '[' then
      match skipWs rest with
      | [] => none
      | c2 :: rest2 =>
        if c2 = ']' then (if skipWs rest2 = [] then some [] else none)
        else if c2 = '\"' then
          match parseStringBody rest2 with
          | some (s, rest3) =>
            match parseMoreElems (rest3.length + 1) rest3 with
            | some (ss, r) =>
              if skipWs r = [] then some ((s :: ss).map String.mk) else none
            | none => none
          | none => none
        else none
    else none

/-- Modelled from the spec: decode every cell and concatenate the decoded
arrays in order; `none` if any cell fails to decode. -/
def decodeConcat : List String → Option (List String)
  | [] => some []
  | c :: cs =>
    match jsonLoadsList c, decodeConcat cs with
    | some xs, some ys => some (xs ++ ys)
    | _, _ => none

/-! ## `write_news_list_to_source` (dedup/merge append)

Python (retry loop and worksheet handle elided; the worksheet's current
rows, header first, are the `rows` argument):
```
existing_data = ws.get_all_values()
existing_urls = set(row[1] for row in existing_data[1:] if len(row) > 1)
new_data = [[a['タイトル'], a['URL'], a['投稿日'], a['引用元']]
            for a in articles if a['URL'] not in existing_urls]
if new_data:
    ws.append_rows(new_data, ...)
```
-/

/-- One scraped article, as assembled by `get_yahoo_news_with_selenium`. -/
structure Article where
  title : String
  url : String
  postedAt : String
  outlet : String
deriving DecidableEq

/-- The A–D row written for an article
(`[a['タイトル'], a['URL'], a['引用元']...]` order as in the source). -/
def articleRow (a : Article) : List String :=
  [a.title, a.url, a.postedAt, a.outlet]

/-- `set(row[1] for row in existing_data[1:] if len(row) > 1)` as an
ordered list: the url cells of all data rows (header skipped). -/
def existingUrls (rows : List (List String)) : List String :=
  (rows.drop 1).filterMap (fun r => r[1]?)

/-- `write_news_list_to_source`: append the rows of the articles whose url
is not already present; returns the new sheet state. -/
def write_news_list_to_source (rows : List (List String))
    (articles : List Article) : List (List String) :=
  let ex := existingUrls rows
  rows ++ (articles.filter (fun a => decide (a.url ∉ ex))).map articleRow

/-! ## Timestamps and `parse_post_date`

`transfer_a_to_e` reads the master log through `ws.get('A:D')`, which
yields formatted string cells, so only the string branch of
`parse_post_date` is reachable from it (the int/float Excel-serial branch
and the datetime branch receive no input on this call path).  A naive JST
`datetime` is modelled by its six components; Python compares valid
same-timezone datetimes field-lexicographically. -/

/-- A naive `datetime` in JST (microseconds are never compared on this
call path: `start`/`end` are built with `microsecond=0` and parsed values
carry none). -/
structure PyDateTime where
  year : Int
  month : Nat
  day : Nat
  hour : Nat
  minute : Nat
  second : Nat
deriving DecidableEq

/-- Python `datetime` order (field-lexicographic) as a Boolean `≤`. -/
def dtLe (a b : PyDateTime) : Bool :=
  if a.year ≠ b.year then decide (a.year < b.year)
  else if a.month ≠ b.month then decide (a.month < b.month)
  else if a.day ≠ b.day then decide (a.day < b.day)
  else if a.hour ≠ b.hour then decide (a.hour < b.hour)
  else if a.minute ≠ b.minute then decide (a.minute < b.minute)
  else decide (a.second ≤ b.second)

/-- Gregorian leap year. -/
def isLeap (y : Int) : Prop :=
  y % 4 = 0 ∧ (y % 100 ≠ 0 ∨ y % 400 = 0)

instance (y : Int) : Decidable (isLeap y) := by
  unfold isLeap
  infer_instance

/-- Days in a month of the proleptic Gregorian calendar. -/
def daysInMonth (y : Int) (m : Nat) : Nat :=
  if m = 2 then (if isLeap y then 29 else 28)
  else if m = 4 ∨ m = 6 ∨ m = 9 ∨ m = 11 then 30
  else 31

/-- `datetime - timedelta(days=1)` on the date components. -/
def prevDay (t : PyDateTime) : PyDateTime :=
  if 2 ≤ t.day then { t with day := t.day - 1 }
  else if 2 ≤ t.month then
    { t with month := t.month - 1, day := daysInMonth t.year (t.month - 1) }
  else { t with year := t.year - 1, month := 12, day := 31 }

/-- `datetime` range validation performed by the constructor
(`MINYEAR = 1`, `MAXYEAR = 9999`). -/
def validDate (y : Int) (m d : Nat) : Prop :=
  1 ≤ y ∧ y ≤ 9999 ∧ 1 ≤ m ∧ m ≤ 12 ∧ 1 ≤ d ∧ d ≤ daysInMonth y m

instance (y : Int) (m d : Nat) : Decidable (validDate y m d) := by
  unfold validDate
  infer_instance

/-- Time-of-day validation performed by the `datetime` constructor. -/
def validTime (h mi s : Nat) : Prop :=
  h ≤ 23 ∧ mi ≤ 59 ∧ s ≤ 59

instance (h mi s : Nat) : Decidable (validTime h mi s) := by
  unfold validTime
  infer_instance

/-- Python `str.strip` whitespace class. -/
def pyIsSpace (c : Char) : Bool :=
  c == ' ' || c == '\t' || c == '\n' || c == '\r' || c == '\x0b' || c == '\x0c'

/-- `str.strip()`: drop leading and trailing whitespace. -/
def pyStrip (s : String) : String :=
  String.mk (((s.data.dropWhile pyIsSpace).reverse.dropWhile pyIsSpace).reverse)

/-- One decimal digit's value, if any. -/
def digitVal (c : Char) : Option Nat :=
  if c.isDigit then some (c.toNat - 48) else none

/-- `strptime` two-digit directive (`%m %d %H %M %S`): one or two digits,
maximal munch (the fixed non-digit separators of the formats below make
this equivalent to the regex alternation `strptime` uses). -/
def read2 : List Char → Option (Nat × List Char)
  | [] => none
  | c :: cs =>
    match digitVal c with
    | none => none
    | some d1 =>
      match cs with
      | [] => some (d1, [])
      | c2 :: cs2 =>
        match digitVal c2 with
        | some d2 => some (10 * d1 + d2, cs2)
        | none => some (d1, cs)

/-- `strptime` `%Y`: exactly four digits. -/
def read4 : List Char → Option (Nat × List Char)
  | c1 :: c2 :: c3 :: c4 :: cs =>
    match digitVal c1, digitVal c2, digitVal c3, digitVal c4 with
    | some a, some b, some u, some v => some (((a * 10 + b) * 10 + u) * 10 + v, cs)
    | _, _, _, _ => none
  | _ => none

/-- Match one literal separator character. -/
def expectChar (ch : Char) : List Char → Option (List Char)
  | [] => none
  | c :: cs => if c = ch then some cs else none

/-- A whitespace in a `strptime` format matches one or more input
whitespace characters. -/
def expectWs : List Char → Option (List Char)
  | [] => none
  | c :: cs => if pyIsSpace c then some (cs.dropWhile pyIsSpace) else none

/-- `strptime(s, "%m/%d %H:%M")`, components only. -/
def parseFmtMDHM (cs : List Char) : Option (Nat × Nat × Nat × Nat) :=
  (read2 cs).bind fun (m, r1) =>
  (expectChar '/' r1).bind fun r2 =>
  (read2 r2).bind fun (d, r3) =>
  (expectWs r3).bind fun r4 =>
  (read2 r4).bind fun (h, r5) =>
  (expectChar ':' r5).bind fun r6 =>
  (read2 r6).bind fun (mi, r7) =>
  if r7 = [] then some (m, d, h, mi) else none

/-- `strptime(s, "%Y/%m/%d %H:%M")`, components only. -/
def parseFmtYMDHM (cs : List Char) : Option (Nat × Nat × Nat × Nat × Nat) :=
  (read4 cs).bind fun (y, r1) =>
  (expectChar '/' r1).bind fun r2 =>
  (read2 r2).bind fun (m, r3) =>
  (expectChar '/' r3).bind fun r4 =>
  (read2 r4).bind fun (d, r5) =>
  (expectWs r5).bind fun r6 =>
  (read2 r6).bind fun (h, r7) =>
  (expectChar ':' r7).bind fun r8 =>
  (read2 r8).bind fun (mi, r9) =>
  if r9 = [] then some (y, m, d, h, mi) else none

/-- `strptime(s, "%Y/%m/%d %H:%M:%S")`, components only. -/
def parseFmtYMDHMS (cs : List Char) :
    Option (Nat × Nat × Nat × Nat × Nat × Nat) :=
  (read4 cs).bind fun (y, r1) =>
  (expectChar '/' r1).bind fun r2 =>
  (read2 r2).bind fun (m, r3) =>
  (expectChar '/' r3).bind fun r4 =>
  (read2 r4).bind fun (d, r5) =>
  (expectWs r5).bind fun r6 =>
  (read2 r6).bind fun (h, r7) =>
  (expectChar ':' r7).bind fun r8 =>
  (read2 r8).bind fun (mi, r9) =>
  (expectChar ':' r9).bind fun r10 =>
  (read2 r10).bind fun (s, r11) =>
  if r11 = [] then some (y, m, d, h, mi, s) else none

/-- First format of `parse_post_date`: `"%m/%d %H:%M"`, validated at
`strptime`'s default year 1900, then `replace(year=today_jst.year)`. -/
def tryFmt1 (cs : List Char) (todayYear : Int) : Option PyDateTime :=
  match parseFmtMDHM cs with
  | some (m, d, h, mi) =>
    if validDate 1900 m d ∧ validTime h mi 0 then
      some ⟨todayYear, m, d, h, mi, 0⟩
    else none
  | none => none

/-- Second format of `parse_post_date`: `"%Y/%m/%d %H:%M"`. -/
def tryFmt2 (cs : List Char) : Option PyDateTime :=
  match parseFmtYMDHM cs with
  | some (y, m, d, h, mi) =>
    if validDate y m d ∧ validTime h mi 0 then
      some ⟨y, m, d, h, mi, 0⟩
    else none
  | none => none

/-- Third format of `parse_post_date`: `"%Y/%m/%d %H:%M:%S"`. -/
def tryFmt3 (cs : List Char) : Option PyDateTime :=
  match parseFmtYMDHMS cs with
  | some (y, m, d, h, mi, s) =>
    if validDate y m d ∧ validTime h mi s then
      some ⟨y, m, d, h, mi, s⟩
    else none
  | none => none

/-- `parse_post_date` (string branch, the one reachable from
`transfer_a_to_e`): strip, then try the three formats in order. -/
def parse_post_date (raw : String) (todayYear : Int) : Option PyDateTime :=
  let cs := (pyStrip raw).data
  tryFmt1 cs todayYear <|> tryFmt2 cs <|> tryFmt3 cs

/-- Zero-padded two-digit rendering (`strftime` `%y %H %M`). -/
def pad2 (n : Nat) : String :=
  if n < 10 then "0" ++ toString n else toString n

/-- `format_yy_m_d_hm`: `"YY/M/D HH:MM"`, month/day unpadded. -/
def format_yy_m_d_hm (dt : PyDateTime) : String :=
  pad2 ((dt.year % 100).toNat) ++ "/" ++ toString dt.month ++ "/"
    ++ toString dt.day ++ " " ++ pad2 dt.hour ++ ":" ++ pad2 dt.minute

/-- `start = (now - timedelta(days=1)).replace(hour=15, minute=0,
second=0, microsecond=0)`. -/
def windowStart (now : PyDateTime) : PyDateTime :=
  let p := prevDay now
  { p with hour := 15, minute := 0, second := 0 }

/-- `end = now.replace(hour=14, minute=59, second=59, microsecond=0)`. -/
def windowEnd (now : PyDateTime) : PyDateTime :=
  { now with hour := 14, minute := 59, second := 59 }

/-- The per-row body of the `transfer_a_to_e` loop: produce the A–E row to
append, or `none` when the row is skipped.  `existing` is the url column
of the destination tab (header dropped), `now` the JST wall clock. -/
def keepRow (existing : List String) (now : PyDateTime)
    (r : List String) : Option (List String) :=
  let title := pyStrip (r.getD 0 "")
  let url := pyStrip (r.getD 1 "")
  let postedRaw := r.getD 2 ""
  let site := pyStrip (r.getD 3 "")
  if title = "" ∨ url = "" then none
  else
    match parse_post_date postedRaw now.year with
    | none => none
    | some dt =>
      if ¬ (dtLe (windowStart now) dt = true ∧ dtLe dt (windowEnd now) = true)
      then none
      else if url ∈ existing then none
      else some ["Yahoo", title, url, format_yy_m_d_hm dt, site]

/-- `transfer_a_to_e`: the rows appended to the day tab (the source rows
are `A:D`, the first being the header, which `i == 0: continue` skips). -/
def transfer_a_to_e (srcRows : List (List String)) (existing : List String)
    (now : PyDateTime) : List (List String) :=
  (srcRows.drop 1).filterMap (keepRow existing now)

/-! ## `fetch_comments_with_selenium`

The rendering fetch is abstracted as `src : Nat → List String`, giving for
each page number the stripped texts of the candidate comment nodes
(`p.get_text(strip=True)` over the selector matches).  The loop body then
filters out empty texts, de-duplicates within the page preserving first
occurrences (`list(dict.fromkeys(...))`), and applies the cross-page stop
rules.  The `while True:` loop is run on explicit fuel; `none` marks fuel
exhaustion (the loop still running), `some` a genuine exit. -/

/-- `list(dict.fromkeys(l))`: de-duplicate keeping first occurrences. -/
def dedupFirstAux : List String → List String → List String
  | [], _ => []
  | x :: xs, seen =>
    if x ∈ seen then dedupFirstAux xs seen
    else x :: dedupFirstAux xs (x :: seen)

/-- De-duplicate a page's comments, first occurrence wins. -/
def dedupFirst (l : List String) : List String :=
  dedupFirstAux l []

/-- `page_comments` for one page: non-empty texts, de-duplicated. -/
def pageCommentsOf (src : Nat → List String) (page : Nat) : List String :=
  dedupFirst ((src page).filter (fun s => s ≠ ""))

/-- The `while True:` loop of `fetch_comments_with_selenium`, on fuel. -/
def fetchCommentsAux (src : Nat → List String) :
    Nat → List String → Option String → Nat → Option (List String)
  | 0, _, _, _ => none
  | fuel + 1, comments, lastTail, page =>
    let pc := pageCommentsOf src page
    if pc = [] then some comments
    else if lastTail ≠ none ∧ pc.head? = lastTail then some comments
    else
      let comments2 := comments ++ pc
      if MAX_TOTAL_COMMENTS ≤ comments2.length then
        some (comments2.take MAX_TOTAL_COMMENTS)
      else
        fetchCommentsAux src fuel comments2 (some (pc.getLastD "")) (page + 1)

/-- `fetch_comments_with_selenium` from the initial state
(`comments = []`, `last_tail = None`, `page = 1`). -/
def fetch_comments_with_selenium (src : Nat → List String) (fuel : Nat) :
    Option (List String) :=
  fetchCommentsAux src fuel [] none 1

/-! ## `fetch_article_pages`

The HTTP fetch and HTML parse are abstracted as
`src : Nat → Option Page`: `none` when `requests.get`/`raise_for_status`
fails for that page (the `except: break` path), otherwise the parsed
page: the stripped `<title>` text if a title tag exists, the `<time>`
text if present, and the stripped paragraph texts of the `<article>`
and/or `<main>` containers when those exist. -/

/-- Parsed page content, as extracted by BeautifulSoup in the source. -/
structure Page where
  titleTag : Option String
  timeTag : Option String
  articlePs : Option (List String)
  mainPs : Option (List String)

/-- `"\n".join(p.get_text(strip=True) for p in ps if p.get_text(strip=True))`. -/
def joinPs (ps : List String) : String :=
  String.intercalate "\n" (ps.filter (fun s => s ≠ ""))

/-- `body_text` for one page: paragraphs of `<article>`, and if that gives
an empty string, paragraphs of `<main>`. -/
def bodyTextOf (pg : Page) : String :=
  let a := match pg.articlePs with
    | some ps => joinPs ps
    | none => ""
  if a = "" then
    match pg.mainPs with
    | some ps => joinPs ps
    | none => ""
  else a

/-- The `for page in range(1, MAX_BODY_PAGES + 1)` loop; `rem` counts the
remaining iterations, `page` the current page number. -/
def fetchPagesAux (src : Nat → Option Page) :
    Nat → Nat → String → String → List String → String × String × List String
  | 0, _, t, d, bs => (t, d, bs)
  | rem + 1, page, t, d, bs =>
    match src page with
    | none => (t, d, bs)
    | some pg =>
      let t2 := if page = 1 then
          (match pg.titleTag with
           | some s => if s ≠ "" then s.replace " - Yahoo!ニュース" "" else t
           | none => t)
        else t
      let d2 := if page = 1 then
          (match pg.timeTag with
           | some s => s
           | none => d)
        else d
      let bt := bodyTextOf pg
      if bt = "" ∨ bs.getLast? = some bt then (t2, d2, bs)
      else fetchPagesAux src rem (page + 1) t2 d2 (bs ++ [bt])

/-- `fetch_article_pages` from its initial state. -/
def fetch_article_pages (src : Nat → Option Page) :
    String × String × List String :=
  fetchPagesAux src MAX_BODY_PAGES 1 "取得不可" "取得不可" []

/-! ## `write_bodies_and_comments` and the working-table header

Per-row enrichment (`fetch_article_pages` + `fetch_comments_with_selenium`
behind the network) is abstracted as
`enrich : String → Option (List String × List String)` mapping a url to
`(bodies, comments)`, with `none` standing for any exception raised
during that row's `try:` block. -/

/-- A spreadsheet cell as written by this code: a string or an int. -/
inductive Cell where
  | s (v : String)
  | n (v : Nat)
deriving DecidableEq

/-- The row built for one url: on success
`body_cells + [cnt] + json_per_page`
(`bodies[:10]` padded to 10 with `""`, the comment count, then one JSON
cell per `chunk(comments, 10)` page); on exception
`[""] * MAX_BODY_PAGES + [0]`. -/
def rowFor (enrich : String → Option (List String × List String))
    (url : String) : List Cell :=
  match enrich url with
  | some (bodies, comments) =>
    ((bodies.take MAX_BODY_PAGES).map Cell.s
        ++ List.replicate (MAX_BODY_PAGES - bodies.length) (Cell.s ""))
      ++ [Cell.n comments.length]
      ++ (chunk comments 10).map (fun pg => Cell.s (jsonDumpsList pg))
  | none => List.replicate MAX_BODY_PAGES (Cell.s "") ++ [Cell.n 0]

/-- Running maximum of `len(comment_pages)` over the successful rows. -/
def maxCommentPagesOf (enrich : String → Option (List String × List String))
    (urls : List String) : Nat :=
  (urls.filterMap
    (fun u => (enrich u).map (fun e => (chunk e.2 10).length))).foldl max 0

/-- Row padding to `need_cols` with empty cells. -/
def padRow (needCols : Nat) (row : List Cell) : List Cell :=
  row ++ List.replicate (needCols - row.length) (Cell.s "")

/-- `write_bodies_and_comments`: the padded `rows_data` block written at
`F2`, and `max_comment_pages`. -/
def write_bodies_and_comments (urls : List String)
    (enrich : String → Option (List String × List String)) :
    List (List Cell) × Nat :=
  let maxCP := maxCommentPagesOf enrich urls
  let needCols := MAX_BODY_PAGES + 1 + maxCP
  ((urls.map (rowFor enrich)).map (padRow needCols), maxCP)

/-- Columns A–E of the working table. -/
def headerBase : List String :=
  ["ソース", "タイトル", "URL", "投稿日", "掲載元"]

/-- `本文({i}ページ)` for `i = 1..MAX_BODY_PAGES` (columns F..O). -/
def bodyHeaders : List String :=
  (List.range' 1 MAX_BODY_PAGES).map (fun i => "本文(" ++ toString i ++ "ページ)")

/-- `コメント({i}ページJSON)` for `i = 1..max(1, max_comment_pages)`
(columns Q onward). -/
def commentPageHeaders (maxCP : Nat) : List String :=
  (List.range' 1 (max 1 maxCP)).map
    (fun i => "コメント(" ++ toString i ++ "ページJSON)")

/-- The target header row of `ensure_body_comment_headers`. -/
def headerTarget (maxCP : Nat) : List String :=
  headerBase ++ bodyHeaders ++ ["コメント数"] ++ commentPageHeaders maxCP

/-- `ws.update(range_name='A1', values=[target])`: overwrite the first
`len(target)` cells of the row, leaving any further cells unchanged. -/
def updateRow1 (current target : List String) : List String :=
  target ++ current.drop target.length

/-- `ensure_body_comment_headers`: rewrite row 1 when it differs from the
target. -/
def ensure_body_comment_headers (current : List String) (maxCP : Nat) :
    List String :=
  if current = headerTarget maxCP then current
  else updateRow1 current (headerTarget maxCP)

/-- Reading a cell of a stored row: absent trailing cells read as empty. -/
def readCell (row : List Cell) (c : Nat) : Cell :=
  row.getD c (Cell.s "")

/-! ## Theorems -/

/-- C9: with `size ≤ 0` the guard returns the whole input as one unsplit
chunk; the function is total (no zero-step `range` error). -/
theorem C9_chunk_nonpositive_size (l : List String) (size : Int)
    (h : size ≤ 0) : chunk l size = [l] := by
  simp [chunk, h]

/-- Witness for C9 at a concrete input. -/
theorem C9_chunk_nonpositive_size_witness :
    chunk ["a", "b"] 0 = [["a", "b"]] :=
  C9_chunk_nonpositive_size ["a", "b"] 0 (by decide)

/-- Auxiliary: slicing then concatenating restores the list (bounded
induction on a length bound). -/
theorem chunkPos_flatten_bounded (n : Nat) (hn : 1 ≤ n) :
    ∀ (k : Nat) (l : List String), l.length ≤ k →
      (chunkPos n l).flatten = l := by
  intro k
  induction k with
  | zero =>
    intro l hl
    have hnil : l = [] := by cases l <;> simp_all
    subst hnil
    simp [chunkPos]
  | succ k ih =>
    intro l hl
    cases l with
    | nil => simp [chunkPos]
    | cons x xs =>
      rw [chunkPos]
      rw [List.flatten_cons]
      rw [ih (xs.drop (n - 1)) (by simp at hl ⊢; omega)]
      simp [List.take_append_drop]

/-- Slicing then concatenating restores the list. -/
theorem chunkPos_flatten (n : Nat) (hn : 1 ≤ n) (l : List String) :
    (chunkPos n l).flatten = l :=
  chunkPos_flatten_bounded n hn l.length l (Nat.le_refl _)

/-- A list of length exactly `n ≥ 1` is a single slice. -/
theorem chunkPos_exact (n : Nat) (hn : 1 ≤ n) (l : List String)
    (hl : l.length = n) : chunkPos n l = [l] := by
  cases l with
  | nil => simp at hl; omega
  | cons x xs =>
    rw [chunkPos]
    have hxs : xs.length = n - 1 := by simp at hl; omega
    rw [List.take_of_length_le (by omega)]
    rw [List.drop_eq_nil_of_le (by omega)]
    rw [chunkPos]

/-- A list of length `n + 1` (`n ≥ 1`) splits into two slices, the second a
singleton. -/
theorem chunkPos_succ (n : Nat) (hn : 1 ≤ n) (l : List String)
    (hl : l.length = n + 1) :
    (chunkPos n l).length = 2 ∧ ((chunkPos n l).getLastD []).length = 1 := by
  cases l with
  | nil => simp at hl
  | cons x xs =>
    have hxs : xs.length = n := by simp at hl; omega
    have hdrop : (xs.drop (n - 1)).length = 1 := by simp [hxs]; omega
    obtain ⟨y, hy⟩ := List.length_eq_one.mp hdrop
    rw [chunkPos, hy, chunkPos]
    simp [chunkPos]

/-- Decoding a produced hex digit recovers its value. -/
theorem hexVal_hexDigitChar : ∀ n < 16, hexVal (hexDigitChar n) = some n := by
  decide

/-- Consuming one escaped character during string-body parsing. -/
theorem parseStringBody_escapeChar (c : Char) (t : List Char) :
    parseStringBody (escapeChar c ++ t) =
      (parseStringBody t).map (fun p => (c :: p.1, p.2)) := by
  rw [escapeChar]
  by_cases h1 : c = '\"'
  · subst h1
    simp only [reduceIte, List.cons_append, List.nil_append]
    rw [parseStringBody.eq_def]
    simp [unescSimple]
  rw [if_neg h1]
  by_cases h2 : c = '\\'
  · subst h2
    simp only [reduceIte, List.cons_append, List.nil_append]
    rw [parseStringBody.eq_def]
    simp [unescSimple]
  rw [if_neg h2]
  by_cases h3 : c = '\n'
  · subst h3
    simp only [reduceIte, List.cons_append, List.nil_append]
    rw [parseStringBody.eq_def]
    simp [unescSimple]
  rw [if_neg h3]
  by_cases h4 : c = '\r'
  · subst h4
    simp only [reduceIte, List.cons_append, List.nil_append]
    rw [parseStringBody.eq_def]
    simp [unescSimple]
  rw [if_neg h4]
  by_cases h5 : c = '\t'
  · subst h5
    simp only [reduceIte, List.cons_append, List.nil_append]
    rw [parseStringBody.eq_def]
    simp [unescSimple]
  rw [if_neg h5]
  by_cases h6 : c.toNat = 8
  · have hc : c = Char.ofNat 8 := by
      rw [← h6, Char.ofNat_toNat]
    rw [if_pos h6, hc]
    simp only [List.cons_append, List.nil_append]
    rw [parseStringBody.eq_def]
    simp [unescSimple]
  rw [if_neg h6]
  by_cases h7 : c.toNat = 12
  · have hc : c = Char.ofNat 12 := by
      rw [← h7, Char.ofNat_toNat]
    rw [if_pos h7, hc]
    simp only [List.cons_append, List.nil_append]
    rw [parseStringBody.eq_def]
    simp [unescSimple]
  rw [if_neg h7]
  by_cases h8 : c.toNat < 32
  · rw [if_pos h8]
    have hd : hexVal (hexDigitChar (c.toNat / 16)) = some (c.toNat / 16) :=
      hexVal_hexDigitChar _ (by omega)
    have hm : hexVal (hexDigitChar (c.toNat % 16)) = some (c.toNat % 16) :=
      hexVal_hexDigitChar _ (by omega)
    have h0 : hexVal '0' = some 0 := by decide
    simp only [List.cons_append, List.nil_append]
    rw [parseStringBody.eq_def]
    simp only [reduceCtorEq, reduceIte, h0, hd, hm]
    simp only [show ∀ a b : Nat, ((0 * 16 + 0) * 16 + a) * 16 + b = a * 16 + b from
      by omega]
    simp only [show c.toNat / 16 * 16 + c.toNat % 16 = c.toNat from by omega,
      Char.ofNat_toNat]
    simp
  rw [if_neg h8]
  simp only [List.cons_append, List.nil_append]
  rw [parseStringBody.eq_def]
  simp only [if_neg h1, if_neg h2]

/-- Parsing an escaped string body stops at the closing quote and recovers
the original characters. -/
theorem parseStringBody_escChars (s : List Char) (t : List Char) :
    parseStringBody (escChars s ++ ('\"' :: t)) = some (s, t) := by
  induction s with
  | nil =>
    rw [escChars, List.nil_append, parseStringBody.eq_def]
    simp
  | cons c cs ih =>
    rw [escChars, List.append_assoc, parseStringBody_escapeChar, ih]
    rfl

/-- The encoded tail is at least as long as its element list. -/
theorem encTailChars_length (xs : List (List Char)) :
    xs.length ≤ (encTailChars xs).length := by
  induction xs with
  | nil => simp [encTailChars]
  | cons x xs ih =>
    rw [encTailChars]
    simp only [List.length_cons, List.length_append]
    omega

/-- `']'`, `','` and `'\"'` are not JSON whitespace, so `skipWs` keeps them. -/
theorem skipWs_cons_of_not_ws (c : Char) (l : List Char) (h : isJsonWs c = false) :
    skipWs (c :: l) = c :: l := by
  simp [skipWs, List.dropWhile_cons, h]

/-- `skipWs` drops a leading whitespace character. -/
theorem skipWs_cons_ws (c : Char) (l : List Char) (h : isJsonWs c = true) :
    skipWs (c :: l) = skipWs l := by
  simp [skipWs, List.dropWhile_cons, h]

/-- Parsing the encoded items after the first one recovers them all. -/
theorem parseMoreElems_encTail (xs : List (List Char)) :
    ∀ (fuel : Nat) (r : List Char), xs.length < fuel →
      parseMoreElems fuel (encTailChars xs ++ (']' :: r)) = some (xs, r) := by
  induction xs with
  | nil =>
    intro fuel r hf
    match fuel, hf with
    | fuel + 1, _ =>
      rw [encTailChars, List.nil_append, parseMoreElems]
      rw [skipWs_cons_of_not_ws _ _ (by decide)]
      simp only [reduceIte]
  | cons x xs ih =>
    intro fuel r hf
    match fuel, hf with
    | fuel + 1, hf =>
      rw [encTailChars, parseMoreElems]
      simp only [List.cons_append]
      rw [skipWs_cons_of_not_ws _ _ (by decide)]
      simp only [reduceIte]
      rw [skipWs_cons_ws _ _ (by decide)]
      rw [quotedChars]
      simp only [List.cons_append, List.append_assoc]
      rw [skipWs_cons_of_not_ws _ _ (by decide)]
      simp only [reduceIte]
      rw [if_neg (by decide : ¬(',' : Char) = ']')]
      simp only [List.nil_append]
      rw [parseStringBody_escChars]
      simp only [reduceIte]
      rw [ih fuel r (by simpa using hf)]
      simp

/-- Strings are their character lists. -/
theorem map_mk_data (ys : List String) :
    ys.map (fun s => String.mk s.data) = ys := by
  induction ys with
  | nil => rfl
  | cons y ys ih => simp [ih]

/-- Strings are their character lists (composition form). -/
theorem map_mk_data_comp (ys : List String) :
    ys.map (String.mk ∘ String.data) = ys := by
  induction ys with
  | nil => rfl
  | cons y ys ih => simp [ih]

/-- Decoding an encoded cell recovers the original list of strings. -/
theorem jsonLoadsList_jsonDumpsList (l : List String) :
    jsonLoadsList (jsonDumpsList l) = some l := by
  cases l with
  | nil => rfl
  | cons x xs =>
    rw [jsonDumpsList, jsonLoadsList]
    rw [show (String.mk ('[' :: (encElemsChars ((x :: xs).map String.data) ++ [']']))).data
          = '[' :: (encElemsChars ((x :: xs).map String.data) ++ [']']) from rfl]
    rw [skipWs_cons_of_not_ws _ _ (by decide)]
    simp only [reduceIte]
    rw [List.map_cons, encElemsChars, quotedChars]
    simp only [List.cons_append, List.append_assoc]
    rw [skipWs_cons_of_not_ws _ _ (by decide)]
    simp only [reduceIte]
    rw [if_neg (by decide : ¬('\"' : Char) = ']')]
    simp only [List.nil_append]
    rw [parseStringBody_escChars]
    simp only [reduceIte]
    rw [show encTailChars (xs.map String.data) ++ [']']
          = encTailChars (xs.map String.data) ++ (']' :: []) from rfl]
    rw [parseMoreElems_encTail (xs.map String.data) _ []
      (by
        have h1 := encTailChars_length (xs.map String.data)
        simp only [List.length_map] at h1
        simp only [List.length_append, List.length_cons, List.length_map]
        omega)]
    simp [map_mk_data, map_mk_data_comp, skipWs]

/-- Decoding every encoded cell and concatenating gives the concatenation
of the cells. -/
theorem decodeConcat_map_dumps (cells : List (List String)) :
    decodeConcat (cells.map jsonDumpsList) = some cells.flatten := by
  induction cells with
  | nil => rfl
  | cons c cs ih =>
    rw [List.map_cons, decodeConcat, jsonLoadsList_jsonDumpsList, ih]
    rfl

/-- C2: cell packing round-trip.  For every positive `page_capacity`:
packing the empty list yields zero cells; packing exactly `page_capacity`
comments yields one cell with all of them; packing `page_capacity + 1`
yields two cells, the second with exactly one element; and JSON-decoding
every produced cell and concatenating the decoded arrays in order
reconstructs the input exactly. -/
theorem C2_cell_packer_roundtrip (n : Int) (hn : 0 < n) :
    chunk [] n = []
    ∧ (∀ l : List String, l.length = n.toNat → chunk l n = [l])
    ∧ (∀ l : List String, l.length = n.toNat + 1 →
        (chunk l n).length = 2 ∧ ((chunk l n).getLastD []).length = 1)
    ∧ (∀ l : List String,
        decodeConcat ((chunk l n).map jsonDumpsList) = some l) := by
  have hsize : ¬ n ≤ 0 := by omega
  have hn1 : 1 ≤ n.toNat := by omega
  refine ⟨?_, ?_, ?_, ?_⟩
  · simp [chunk, hsize, chunkPos]
  · intro l hl
    simp [chunk, hsize, chunkPos_exact n.toNat hn1 l hl]
  · intro l hl
    simpa [chunk, hsize] using chunkPos_succ n.toNat hn1 l hl
  · intro l
    rw [chunk, if_neg hsize, decodeConcat_map_dumps, chunkPos_flatten n.toNat hn1]

/-- Witness for C2 at capacity 2 and concrete comment lists. -/
theorem C2_cell_packer_roundtrip_witness :
    chunk [] 2 = []
    ∧ chunk ["a", "b"] 2 = [["a", "b"]]
    ∧ ((chunk ["a", "b", "c"] 2).length = 2
        ∧ ((chunk ["a", "b", "c"] 2).getLastD []).length = 1)
    ∧ decodeConcat ((chunk ["a", "b", "c"] 2).map jsonDumpsList)
        = some ["a", "b", "c"] := by
  have T := C2_cell_packer_roundtrip 2 (by decide)
  exact ⟨T.1, T.2.1 _ (by decide), T.2.2.1 _ (by decide), T.2.2.2 _⟩

/-- The url cells of the appended rows are the urls of the kept articles
(the sheet is never empty: it always carries its header row). -/
theorem existingUrls_append_rows (rows : List (List String))
    (articles : List Article) (p : Article → Bool) (hne : rows ≠ []) :
    existingUrls (rows ++ (articles.filter p).map articleRow)
      = existingUrls rows
        ++ (articles.filter p).map Article.url := by
  match rows, hne with
  | h :: t, _ =>
    rw [existingUrls, existingUrls]
    simp only [List.cons_append, List.drop_succ_cons, List.drop_zero]
    rw [List.filterMap_append, List.filterMap_map]
    congr 1
    rw [show ((fun r : List String => r[1]?) ∘ articleRow)
          = some ∘ Article.url from funext (fun a => rfl)]
    rw [List.filterMap_eq_map]

/-- C1 counterexample: the operation filters only against urls already on
the sheet, not within the input batch, so an input list containing the
same url twice appends two rows with that url to an empty (header-only)
log, and the url then appears in more than one row. -/
theorem C1_append_new_counterexample :
    ¬ (existingUrls (write_news_list_to_source
        [["タイトル", "URL", "投稿日", "引用元"]]
        [⟨"A", "http://x/1", "10/05 09:00", "O"⟩,
         ⟨"A", "http://x/1", "10/05 09:00", "O"⟩])).Nodup := by
  decide

/-- Appended article rows expose the article urls (header-less sheet). -/
theorem existingUrls_map_articleRow (l : List Article) :
    existingUrls (l.map articleRow) = (l.map Article.url).drop 1 := by
  rw [existingUrls, List.drop_one, ← List.drop_one, ← List.map_drop,
    List.filterMap_map,
    show ((fun r : List String => r[1]?) ∘ articleRow)
      = some ∘ Article.url from funext (fun a => rfl),
    List.filterMap_eq_map, List.map_drop]

/-- C1 (amended): provided the master log's url column is duplicate-free
and the input batch has pairwise-distinct urls, the appended log keeps
every url in at most one row; and the spec scenario holds: appending one
record to an empty (header-only) log appends exactly that row, and a
second call with the same record appends nothing. -/
theorem C1_append_new_url_unique :
    (∀ (rows : List (List String)) (articles : List Article),
      (existingUrls rows).Nodup →
      (articles.map Article.url).Nodup →
      (existingUrls (write_news_list_to_source rows articles)).Nodup)
    ∧ write_news_list_to_source [["タイトル", "URL", "投稿日", "引用元"]]
        [⟨"A", "http://x/1", "10/05 09:00", "O"⟩]
        = [["タイトル", "URL", "投稿日", "引用元"],
           ["A", "http://x/1", "10/05 09:00", "O"]]
    ∧ write_news_list_to_source
        [["タイトル", "URL", "投稿日", "引用元"],
         ["A", "http://x/1", "10/05 09:00", "O"]]
        [⟨"A", "http://x/1", "10/05 09:00", "O"⟩]
        = [["タイトル", "URL", "投稿日", "引用元"],
           ["A", "http://x/1", "10/05 09:00", "O"]] := by
  refine ⟨?_, by decide, by decide⟩
  intro rows articles hrows hurls
  have hsub : ((articles.filter
        (fun a => decide (a.url ∉ existingUrls rows))).map Article.url).Sublist
      (articles.map Article.url) :=
    List.Sublist.map _ (List.filter_sublist _)
  have hnodup2 := List.Nodup.sublist hsub hurls
  simp only [write_news_list_to_source]
  cases rows with
  | nil =>
    simp only [List.nil_append]
    rw [existingUrls_map_articleRow]
    exact List.Nodup.sublist (List.drop_sublist _ _) hnodup2
  | cons h t =>
    rw [existingUrls_append_rows (h :: t) articles _ (List.cons_ne_nil _ _)]
    refine List.Nodup.append hrows hnodup2 ?_
    intro x hx hx2
    rw [List.mem_map] at hx2
    obtain ⟨a, ha, rfl⟩ := hx2
    rw [List.mem_filter] at ha
    exact (of_decide_eq_true ha.2) hx

/-- Witness for C1 (amended) at a concrete input. -/
theorem C1_append_new_url_unique_witness :
    (existingUrls (write_news_list_to_source
        [["タイトル", "URL", "投稿日", "引用元"]]
        [⟨"A", "http://x/1", "10/05 09:00", "O"⟩])).Nodup :=
  C1_append_new_url_unique.1
    [["タイトル", "URL", "投稿日", "引用元"]]
    [⟨"A", "http://x/1", "10/05 09:00", "O"⟩]
    (by decide) (by decide)

/-- C3: time-window promotion.  `transfer_a_to_e` scans the data rows of
the master log; among rows with a non-empty title and url not already in
the destination tab, a row with parseable posted-at `t` is kept exactly
when `start ≤ t ≤ end`, both bounds inclusive, for
`start` = yesterday 15:00:00 and `end` = today 14:59:59 computed from the
wall clock `now`; in particular a record timestamped today 15:00:01 is
always excluded. -/
theorem C3_transfer_window :
    (∀ (hdr : List String) (rows : List (List String)) (ex : List String)
        (now : PyDateTime),
      transfer_a_to_e (hdr :: rows) ex now
        = rows.filterMap (keepRow ex now))
    ∧ (∀ (ex : List String) (now : PyDateTime) (r : List String)
        (t : PyDateTime),
        pyStrip (r.getD 0 "") ≠ "" →
        pyStrip (r.getD 1 "") ≠ "" →
        pyStrip (r.getD 1 "") ∉ ex →
        parse_post_date (r.getD 2 "") now.year = some t →
        ((keepRow ex now r).isSome
          ↔ (dtLe (windowStart now) t = true ∧ dtLe t (windowEnd now) = true)))
    ∧ (∀ (ex : List String) (now : PyDateTime) (r : List String),
        parse_post_date (r.getD 2 "") now.year
          = some ⟨now.year, now.month, now.day, 15, 0, 1⟩ →
        keepRow ex now r = none) := by
  refine ⟨?_, ?_, ?_⟩
  · intro hdr rows ex now
    rfl
  · intro ex now r t h1 h2 h3 hp
    simp only [keepRow]
    rw [if_neg (not_or.mpr ⟨h1, h2⟩), hp]
    simp only []
    by_cases hwin : dtLe (windowStart now) t = true ∧ dtLe t (windowEnd now) = true
    · rw [if_neg (not_not_intro hwin), if_neg h3]
      simp [hwin]
    · rw [if_pos hwin]
      simp [hwin]
  · intro ex now r hp
    simp only [keepRow]
    by_cases hte : pyStrip (r.getD 0 "") = "" ∨ pyStrip (r.getD 1 "") = ""
    · rw [if_pos hte]
    · rw [if_neg hte, hp]
      simp only []
      have hlt : dtLe ⟨now.year, now.month, now.day, 15, 0, 1⟩ (windowEnd now)
          = false := by
        simp [dtLe, windowEnd]
      rw [if_pos (by simp [hlt])]

/-- Witness for C3 at a concrete clock (2025-10-05 10:00 JST) and rows. -/
theorem C3_transfer_window_witness :
    transfer_a_to_e
        [["タイトル", "URL", "投稿日", "引用元"],
         ["A", "http://x/1", "2025/10/05 09:00", "O"]]
        [] ⟨2025, 10, 5, 10, 0, 0⟩
      = [["A", "http://x/1", "2025/10/05 09:00", "O"]].filterMap
          (keepRow [] ⟨2025, 10, 5, 10, 0, 0⟩)
    ∧ ((keepRow [] ⟨2025, 10, 5, 10, 0, 0⟩
          ["A", "http://x/1", "2025/10/05 09:00", "O"]).isSome
        ↔ (dtLe (windowStart ⟨2025, 10, 5, 10, 0, 0⟩) ⟨2025, 10, 5, 9, 0, 0⟩ = true
            ∧ dtLe ⟨2025, 10, 5, 9, 0, 0⟩ (windowEnd ⟨2025, 10, 5, 10, 0, 0⟩) = true))
    ∧ keepRow [] ⟨2025, 10, 5, 10, 0, 0⟩
        ["A", "http://x/1", "2025/10/05 15:00:01", "O"] = none :=
  ⟨C3_transfer_window.1 _ _ _ _,
   C3_transfer_window.2.1 [] ⟨2025, 10, 5, 10, 0, 0⟩
     ["A", "http://x/1", "2025/10/05 09:00", "O"] ⟨2025, 10, 5, 9, 0, 0⟩
     (by decide) (by decide) (by decide) (by decide),
   C3_transfer_window.2.2 [] ⟨2025, 10, 5, 10, 0, 0⟩
     ["A", "http://x/1", "2025/10/05 15:00:01", "O"] (by decide)⟩

/-- Any genuine exit of the loop carries at most 5000 comments, provided
fewer than 5000 are accumulated so far. -/
theorem fetchCommentsAux_le_cap (src : Nat → List String) :
    ∀ (fuel : Nat) (comments : List String) (lastTail : Option String)
      (page : Nat) (res : List String),
      comments.length < MAX_TOTAL_COMMENTS →
      fetchCommentsAux src fuel comments lastTail page = some res →
      res.length ≤ MAX_TOTAL_COMMENTS := by
  intro fuel
  induction fuel with
  | zero =>
    intro comments lastTail page res hlen heq
    simp [fetchCommentsAux] at heq
  | succ fuel ih =>
    intro comments lastTail page res hlen heq
    rw [fetchCommentsAux] at heq
    by_cases h1 : pageCommentsOf src page = []
    · rw [if_pos h1] at heq
      cases heq
      omega
    · rw [if_neg h1] at heq
      by_cases h2 : lastTail ≠ none ∧ (pageCommentsOf src page).head? = lastTail
      · rw [if_pos h2] at heq
        cases heq
        omega
      · rw [if_neg h2] at heq
        by_cases h3 : MAX_TOTAL_COMMENTS
            ≤ (comments ++ pageCommentsOf src page).length
        · rw [if_pos h3] at heq
          cases heq
          simp [List.length_take]
        · rw [if_neg h3] at heq
          exact ih _ _ _ _ (by omega) heq

/-- C4: the comment extractor returns at most 5000 comment strings
whatever the source serves; and whenever the accumulated count reaches
the cap the loop truncates to exactly 5000 and stops there. -/
theorem C4_comment_cap :
    (∀ (src : Nat → List String) (fuel : Nat) (res : List String),
      fetch_comments_with_selenium src fuel = some res →
      res.length ≤ MAX_TOTAL_COMMENTS)
    ∧ (∀ (src : Nat → List String) (fuel : Nat) (comments : List String)
        (lastTail : Option String) (page : Nat),
        pageCommentsOf src page ≠ [] →
        ¬ (lastTail ≠ none ∧ (pageCommentsOf src page).head? = lastTail) →
        MAX_TOTAL_COMMENTS ≤ (comments ++ pageCommentsOf src page).length →
        fetchCommentsAux src (fuel + 1) comments lastTail page
            = some ((comments ++ pageCommentsOf src page).take MAX_TOTAL_COMMENTS)
          ∧ ((comments ++ pageCommentsOf src page).take MAX_TOTAL_COMMENTS).length
              = MAX_TOTAL_COMMENTS) := by
  constructor
  · intro src fuel res heq
    exact fetchCommentsAux_le_cap src fuel [] none 1 res (by simp [MAX_TOTAL_COMMENTS]) heq
  · intro src fuel comments lastTail page h1 h2 h3
    constructor
    · rw [fetchCommentsAux]
      rw [if_neg h1, if_neg h2, if_pos h3]
    · rw [List.length_take]
      simp only [List.length_append] at h3 ⊢
      omega

/-- Witness for C4: a source with a single one-comment page (part 1), and
an accumulator already holding 4999 comments receiving a fresh page
(part 2). -/
theorem C4_comment_cap_witness :
    (["a"] : List String).length ≤ MAX_TOTAL_COMMENTS
    ∧ (fetchCommentsAux (fun _ => ["b"]) 1 (List.replicate 4999 "a") none 1
          = some ((List.replicate 4999 "a"
              ++ pageCommentsOf (fun _ => ["b"]) 1).take MAX_TOTAL_COMMENTS)
        ∧ ((List.replicate 4999 "a"
              ++ pageCommentsOf (fun _ => ["b"]) 1).take MAX_TOTAL_COMMENTS).length
            = MAX_TOTAL_COMMENTS) := by
  constructor
  · exact C4_comment_cap.1 (fun _ => ["a"]) 3 ["a"] (by decide)
  · refine C4_comment_cap.2 (fun _ => ["b"]) 0 (List.replicate 4999 "a") none 1
      (by decide) (by decide) ?_
    rw [show pageCommentsOf (fun _ => ["b"]) 1 = ["b"] from rfl]
    simp only [List.length_append, List.length_replicate, List.length_cons,
      List.length_nil, MAX_TOTAL_COMMENTS]
    omega

/-- Every continuing iteration appends at least one comment, so with fuel
exceeding the remaining headroom under the cap the loop always exits. -/
theorem fetchCommentsAux_terminates (src : Nat → List String) :
    ∀ (fuel : Nat) (comments : List String) (lastTail : Option String)
      (page : Nat),
      comments.length < MAX_TOTAL_COMMENTS →
      MAX_TOTAL_COMMENTS - comments.length < fuel →
      fetchCommentsAux src fuel comments lastTail page ≠ none := by
  intro fuel
  induction fuel with
  | zero =>
    intro comments lastTail page h1 h2
    omega
  | succ fuel ih =>
    intro comments lastTail page h1 h2
    rw [fetchCommentsAux]
    by_cases hp1 : pageCommentsOf src page = []
    · rw [if_pos hp1]
      simp
    · rw [if_neg hp1]
      by_cases hp2 : lastTail ≠ none ∧ (pageCommentsOf src page).head? = lastTail
      · rw [if_pos hp2]
        simp
      · rw [if_neg hp2]
        by_cases hp3 : MAX_TOTAL_COMMENTS
            ≤ (comments ++ pageCommentsOf src page).length
        · rw [if_pos hp3]
          simp
        · rw [if_neg hp3]
          have hlen : 0 < (pageCommentsOf src page).length :=
            List.length_pos.mpr hp1
          apply ih
          · omega
          · simp only [List.length_append] at hp3 ⊢
            omega

/-- C5: for every synthetic comment source that re-serves its last
non-empty page forever from some page `N` onward, extraction terminates
(for fuel 5001 the loop has genuinely exited) rather than looping
indefinitely. -/
theorem C5_comment_termination (src : Nat → List String) (N : Nat)
    (hlast : src N ≠ []) (hrep : ∀ k, N ≤ k → src k = src N) :
    ∃ (fuel : Nat) (res : List String),
      fetch_comments_with_selenium src fuel = some res := by
  refine ⟨MAX_TOTAL_COMMENTS + 1, ?_⟩
  have h := fetchCommentsAux_terminates src (MAX_TOTAL_COMMENTS + 1) [] none 1
    (by simp [MAX_TOTAL_COMMENTS]) (by simp)
  cases heq : fetchCommentsAux src (MAX_TOTAL_COMMENTS + 1) [] none 1 with
  | none => exact absurd heq h
  | some res => exact ⟨res, heq⟩

/-- Witness for C5: the constant source that serves the same non-empty
page forever. -/
theorem C5_comment_termination_witness :
    ∃ (fuel : Nat) (res : List String),
      fetch_comments_with_selenium (fun _ => ["a"]) fuel = some res :=
  C5_comment_termination (fun _ => ["a"]) 0 (by decide) (fun _ _ => rfl)

/-- The loop performs at most `rem` more iterations, each accepting at
most one page. -/
theorem fetchPagesAux_length (src : Nat → Option Page) :
    ∀ (rem page : Nat) (t d : String) (bs : List String),
      (fetchPagesAux src rem page t d bs).2.2.length ≤ bs.length + rem := by
  intro rem
  induction rem with
  | zero =>
    intro page t d bs
    simp [fetchPagesAux]
  | succ rem ih =>
    intro page t d bs
    rw [fetchPagesAux]
    cases src page with
    | none => simp
    | some pg =>
      simp only []
      by_cases hstop : bodyTextOf pg = "" ∨ bs.getLast? = some (bodyTextOf pg)
      · rw [if_pos hstop]
        simp
      · rw [if_neg hstop]
        have := ih (page + 1)
          (if page = 1 then
            (match pg.titleTag with
             | some s => if s ≠ "" then s.replace " - Yahoo!ニュース" "" else t
             | none => t) else t)
          (if page = 1 then
            (match pg.timeTag with
             | some s => s
             | none => d) else d)
          (bs ++ [bodyTextOf pg])
        simp only [List.length_append, List.length_cons, List.length_nil] at this ⊢
        omega

/-- Running the body loop over pages whose texts are `ts` (all non-empty,
adjacent ones distinct, the first different from the last already-accepted
text) accepts exactly `ts` and stops at the following page, which either
fails to fetch is excluded by the stop test. -/
theorem fetchPagesAux_run (src : Nat → Option Page) :
    ∀ (ts : List String) (rem page : Nat) (t d : String) (bs : List String),
      ts.length < rem →
      (∀ i, i < ts.length →
        ∃ pg, src (page + i) = some pg ∧ bodyTextOf pg = ts.getD i "") →
      (∀ i, i < ts.length → ts.getD i "" ≠ "") →
      (∀ i, i + 1 < ts.length → ts.getD (i + 1) "" ≠ ts.getD i "") →
      (ts ≠ [] → bs.getLast? ≠ some (ts.getD 0 "")) →
      (src (page + ts.length) = none
        ∨ ∃ pg, src (page + ts.length) = some pg ∧
            (bodyTextOf pg = "" ∨ (bs ++ ts).getLast? = some (bodyTextOf pg))) →
      (fetchPagesAux src rem page t d bs).2.2 = bs ++ ts := by
  intro ts
  induction ts with
  | nil =>
    intro rem page t d bs hrem hsrc hne hchain hfirst hstop
    match rem, hrem with
    | rem + 1, _ =>
      rw [fetchPagesAux]
      simp only [List.length_nil, Nat.add_zero] at hstop
      rcases hstop with hnone | ⟨pg, hpg, hbt⟩
      · rw [hnone]
        simp
      · rw [hpg]
        simp only []
        rw [if_pos (by simpa using hbt)]
        simp
  | cons x ts ih =>
    intro rem page t d bs hrem hsrc hne hchain hfirst hstop
    match rem, hrem with
    | rem + 1, hrem =>
      obtain ⟨pg0, hpg0, hbt0⟩ := hsrc 0 (by simp)
      rw [fetchPagesAux]
      rw [show page + 0 = page from rfl] at hpg0
      rw [hpg0]
      simp only []
      rw [show (x :: ts).getD 0 "" = x from rfl] at hbt0
      have hxne : x ≠ "" := by
        have := hne 0 (by simp)
        simpa using this
      have hlast : bs.getLast? ≠ some x := by
        have := hfirst (List.cons_ne_nil _ _)
        simpa using this
      rw [if_neg (by
        rw [hbt0]
        push_neg
        exact ⟨hxne, fun h => hlast h⟩)]
      rw [hbt0]
      rw [show bs ++ x :: ts = (bs ++ [x]) ++ ts from by simp]
      apply ih rem (page + 1) _ _ (bs ++ [x]) (by simpa using hrem)
      · intro i hi
        obtain ⟨pg, hpg, hbt⟩ := hsrc (i + 1) (by simpa using hi)
        refine ⟨pg, ?_, ?_⟩
        · rw [show page + 1 + i = page + (i + 1) from by omega]
          exact hpg
        · simpa using hbt
      · intro i hi
        have := hne (i + 1) (by simpa using hi)
        simpa using this
      · intro i hi
        have := hchain (i + 1) (by simpa using hi)
        simpa using this
      · intro hne2
        rw [List.getLast?_concat]
        intro hcontra
        have h0 : ts.getD 0 "" = x := by
          injection hcontra.symm
        have := hchain 0 (by
          cases ts with
          | nil => exact absurd rfl hne2
          | cons y ys => simp)
        rw [show (x :: ts).getD 1 "" = ts.getD 0 "" from rfl,
          show (x :: ts).getD 0 "" = x from rfl] at this
        exact this h0
      · rw [show page + 1 + ts.length = page + (x :: ts).length from by
          simp; omega]
        rw [show (bs ++ [x]) ++ ts = bs ++ x :: ts from by simp]
        exact hstop

/-- The last element of a non-empty list, via `getD`. -/
theorem getLast?_eq_getD (ts : List String) (hne : ts ≠ []) :
    ts.getLast? = some (ts.getD (ts.length - 1) "") := by
  rw [List.getLast?_eq_getElem?]
  have hlt : ts.length - 1 < ts.length := by
    cases ts with
    | nil => exact absurd rfl hne
    | cons a l => simp
  rw [List.getElem?_eq_getElem hlt]
  rw [List.getD_eq_getElem?_getD, List.getElem?_eq_getElem hlt]
  rfl

/-- C6: the article body extractor (a) never returns more than 10 pages;
(b) when pages `1..k-1` yield non-empty pairwise-adjacent-distinct texts
`ts` and page `k`'s text equals page `k-1`'s, it stops at page `k` and
returns exactly the first `k-1` texts, excluding page `k`; (c) it stops
the same way when page `k` yields empty text. -/
theorem C6_body_pagination_stop :
    (∀ src : Nat → Option Page,
      (fetch_article_pages src).2.2.length ≤ MAX_BODY_PAGES)
    ∧ (∀ (src : Nat → Option Page) (ts : List String),
        ts ≠ [] → ts.length < MAX_BODY_PAGES →
        (∀ i, i < ts.length →
          ∃ pg, src (1 + i) = some pg ∧ bodyTextOf pg = ts.getD i "") →
        (∀ i, i < ts.length → ts.getD i "" ≠ "") →
        (∀ i, i + 1 < ts.length → ts.getD (i + 1) "" ≠ ts.getD i "") →
        (∃ pg, src (1 + ts.length) = some pg
          ∧ bodyTextOf pg = ts.getD (ts.length - 1) "") →
        (fetch_article_pages src).2.2 = ts)
    ∧ (∀ (src : Nat → Option Page) (ts : List String),
        ts.length < MAX_BODY_PAGES →
        (∀ i, i < ts.length →
          ∃ pg, src (1 + i) = some pg ∧ bodyTextOf pg = ts.getD i "") →
        (∀ i, i < ts.length → ts.getD i "" ≠ "") →
        (∀ i, i + 1 < ts.length → ts.getD (i + 1) "" ≠ ts.getD i "") →
        (∃ pg, src (1 + ts.length) = some pg ∧ bodyTextOf pg = "") →
        (fetch_article_pages src).2.2 = ts) := by
  refine ⟨?_, ?_, ?_⟩
  · intro src
    have := fetchPagesAux_length src MAX_BODY_PAGES 1 "取得不可" "取得不可" []
    simpa [fetch_article_pages] using this
  · intro src ts hne0 hlen hsrc hne hchain hstop
    obtain ⟨pg, hpg, hbt⟩ := hstop
    rw [fetch_article_pages]
    rw [show (ts : List String) = [] ++ ts from rfl]
    apply fetchPagesAux_run src ts MAX_BODY_PAGES 1 _ _ [] hlen hsrc hne hchain
    · intro _
      simp
    · right
      refine ⟨pg, hpg, Or.inr ?_⟩
      rw [List.nil_append, hbt]
      exact getLast?_eq_getD ts hne0
  · intro src ts hlen hsrc hne hchain hstop
    obtain ⟨pg, hpg, hbt⟩ := hstop
    rw [fetch_article_pages]
    rw [show (ts : List String) = [] ++ ts from rfl]
    apply fetchPagesAux_run src ts MAX_BODY_PAGES 1 _ _ [] hlen hsrc hne hchain
    · intro _
      simp
    · right
      exact ⟨pg, hpg, Or.inl hbt⟩

/-- Witness for C6: a source repeating page 1's text on page 2 (stop with
one page kept), and a source whose page 2 is empty (same stop). -/
theorem C6_body_pagination_stop_witness :
    (fetch_article_pages (fun _ => none)).2.2.length ≤ MAX_BODY_PAGES
    ∧ (fetch_article_pages (fun n =>
        if n = 1 ∨ n = 2 then some ⟨none, none, some ["P1"], none⟩
        else none)).2.2 = ["P1"]
    ∧ (fetch_article_pages (fun n =>
        if n = 1 then some ⟨none, none, some ["P1"], none⟩
        else if n = 2 then some ⟨none, none, some [], none⟩
        else none)).2.2 = ["P1"] := by
  refine ⟨C6_body_pagination_stop.1 _, ?_, ?_⟩
  · apply C6_body_pagination_stop.2.1 _ ["P1"] (by decide) (by decide)
    · intro i hi
      match i, hi with
      | 0, _ => exact ⟨⟨none, none, some ["P1"], none⟩, rfl, by decide⟩
    · intro i hi
      match i, hi with
      | 0, _ => decide
    · intro i hi
      simp at hi
    · exact ⟨⟨none, none, some ["P1"], none⟩, rfl, by decide⟩
  · apply C6_body_pagination_stop.2.2 _ ["P1"] (by decide)
    · intro i hi
      match i, hi with
      | 0, _ => exact ⟨⟨none, none, some ["P1"], none⟩, rfl, by decide⟩
    · intro i hi
      match i, hi with
      | 0, _ => decide
    · intro i hi
      simp at hi
    · exact ⟨⟨none, none, some [], none⟩, rfl, by decide⟩

/-- C7: per-row enrichment failure is absorbed: the batch writes one row
per url regardless of failures, each row depends only on its own url's
enrichment, and a failing row is recorded with 10 empty body cells,
comment count 0, and only empty comment cells. -/
theorem C7_per_row_error_absorbed
    (urls : List String)
    (enrich : String → Option (List String × List String)) :
    (write_bodies_and_comments urls enrich).1.length = urls.length
    ∧ (∀ i, i < urls.length →
        (write_bodies_and_comments urls enrich).1.getD i []
          = padRow (MAX_BODY_PAGES + 1 + (write_bodies_and_comments urls enrich).2)
              (rowFor enrich (urls.getD i "")))
    ∧ (∀ i, i < urls.length → enrich (urls.getD i "") = none →
        (write_bodies_and_comments urls enrich).1.getD i []
          = List.replicate MAX_BODY_PAGES (Cell.s "") ++ [Cell.n 0]
            ++ List.replicate (write_bodies_and_comments urls enrich).2 (Cell.s "")) := by
  have hidx : ∀ i, i < urls.length →
      (write_bodies_and_comments urls enrich).1.getD i []
        = padRow (MAX_BODY_PAGES + 1 + (write_bodies_and_comments urls enrich).2)
            (rowFor enrich (urls.getD i "")) := by
    intro i hi
    have hu : urls[i]? = some (urls.getD i "") := by
      rw [List.getElem?_eq_getElem hi, List.getD_eq_getElem?_getD,
        List.getElem?_eq_getElem hi]
      rfl
    simp only [write_bodies_and_comments]
    rw [List.getD_eq_getElem?_getD, List.getElem?_map, List.getElem?_map, hu]
    rfl
  refine ⟨?_, hidx, ?_⟩
  · simp [write_bodies_and_comments]
  · intro i hi hfail
    rw [hidx i hi, rowFor, hfail, padRow]
    have hlen : (List.replicate MAX_BODY_PAGES (Cell.s "") ++ [Cell.n 0]).length
        = MAX_BODY_PAGES + 1 := by
      simp
    rw [hlen]
    rw [show MAX_BODY_PAGES + 1 + (write_bodies_and_comments urls enrich).2
          - (MAX_BODY_PAGES + 1) = (write_bodies_and_comments urls enrich).2 from
      by omega]

/-- Witness for C7: two urls, the first failing, the second succeeding
with one comment. -/
theorem C7_per_row_error_absorbed_witness :
    (write_bodies_and_comments ["u1", "u2"]
        (fun u => if u = "u2" then some ([], ["c"]) else none)).1.length = 2
    ∧ (write_bodies_and_comments ["u1", "u2"]
        (fun u => if u = "u2" then some ([], ["c"]) else none)).1.getD 0 []
        = padRow (MAX_BODY_PAGES + 1
            + (write_bodies_and_comments ["u1", "u2"]
                (fun u => if u = "u2" then some ([], ["c"]) else none)).2)
            (rowFor (fun u => if u = "u2" then some ([], ["c"]) else none) "u1")
    ∧ (write_bodies_and_comments ["u1", "u2"]
        (fun u => if u = "u2" then some ([], ["c"]) else none)).1.getD 0 []
        = List.replicate MAX_BODY_PAGES (Cell.s "") ++ [Cell.n 0]
          ++ List.replicate (write_bodies_and_comments ["u1", "u2"]
              (fun u => if u = "u2" then some ([], ["c"]) else none)).2 (Cell.s "") := by
  have T := C7_per_row_error_absorbed ["u1", "u2"]
    (fun u => if u = "u2" then some ([], ["c"]) else none)
  exact ⟨T.1, T.2.1 0 (by decide), T.2.2 0 (by decide) (by decide)⟩

/-- Length of the target header. -/
theorem headerTarget_length (maxCP : Nat) :
    (headerTarget maxCP).length = 16 + max 1 maxCP := by
  simp [headerTarget, headerBase, bodyHeaders, commentPageHeaders,
    MAX_BODY_PAGES]
  omega

/-- C8: when the working table's header carries `n1 ≥ 1` comment-page
columns and this run produced `n2 > n1` comment pages, the header row is
rewritten in place to the wider layout (5 base + 10 body + 1 count + `n2`
comment-page columns); and any shorter prior row reads as empty (not an
error) at every column beyond its stored width. -/
theorem C8_header_widening (n1 n2 : Nat) (h1 : 1 ≤ n1) (h2 : n1 < n2) :
    ensure_body_comment_headers (headerTarget n1) n2 = headerTarget n2
    ∧ (headerTarget n2).length = 16 + n2
    ∧ (headerTarget n2
        = headerBase ++ bodyHeaders ++ ["コメント数"] ++ commentPageHeaders n2
        ∧ (commentPageHeaders n2).length = n2)
    ∧ (∀ (row : List Cell), row.length = 16 + n1 →
        ∀ c, 16 + n1 ≤ c → readCell row c = Cell.s "") := by
  have hm1 : max 1 n1 = n1 := by omega
  have hm2 : max 1 n2 = n2 := by omega
  have hl1 : (headerTarget n1).length = 16 + n1 := by
    rw [headerTarget_length, hm1]
  have hl2 : (headerTarget n2).length = 16 + n2 := by
    rw [headerTarget_length, hm2]
  refine ⟨?_, hl2, ⟨rfl, ?_⟩, ?_⟩
  · rw [ensure_body_comment_headers,
      if_neg (fun he => by rw [he, hl2] at hl1; omega)]
    rw [updateRow1, List.drop_eq_nil_of_le (by omega), List.append_nil]
  · simp [commentPageHeaders, hm2]
  · intro row hrow c hc
    rw [readCell, List.getD_eq_default]
    omega

/-- Witness for C8 at the spec scenario (3 comment columns widened to 5),
with a 19-cell prior row read at columns 19 and 20. -/
theorem C8_header_widening_witness :
    ensure_body_comment_headers (headerTarget 3) 5 = headerTarget 5
    ∧ (headerTarget 5).length = 16 + 5
    ∧ (headerTarget 5
        = headerBase ++ bodyHeaders ++ ["コメント数"] ++ commentPageHeaders 5
        ∧ (commentPageHeaders 5).length = 5)
    ∧ readCell (List.replicate 19 (Cell.s "x")) 19 = Cell.s ""
    ∧ readCell (List.replicate 19 (Cell.s "x")) 20 = Cell.s "" := by
  have T := C8_header_widening 3 5 (by decide) (by decide)
  exact ⟨T.1, T.2.1, T.2.2.1,
    T.2.2.2 (List.replicate 19 (Cell.s "x")) (by decide) 19 (by decide),
    T.2.2.2 (List.replicate 19 (Cell.s "x")) (by decide) 20 (by decide)⟩

/-- C10: whatever header the sheet currently has (as long as it is not
longer than the target), `ensure_body_comment_headers` writes the target
header, whose comment-page segment has `max 1 max_comment_pages` columns,
hence at least one even when `max_comment_pages = 0`. -/
theorem C10_header_min_one_comment_col (current : List String) (maxCP : Nat)
    (hlen : current.length ≤ (headerTarget maxCP).length) :
    ensure_body_comment_headers current maxCP = headerTarget maxCP
    ∧ headerTarget maxCP
        = headerBase ++ bodyHeaders ++ ["コメント数"] ++ commentPageHeaders maxCP
    ∧ (commentPageHeaders maxCP).length = max 1 maxCP
    ∧ 1 ≤ (commentPageHeaders maxCP).length := by
  have hcl : (commentPageHeaders maxCP).length = max 1 maxCP := by
    simp [commentPageHeaders]
  refine ⟨?_, rfl, hcl, by omega⟩
  rw [ensure_body_comment_headers]
  by_cases he : current = headerTarget maxCP
  · rw [if_pos he]
    exact he
  · rw [if_neg he, updateRow1, List.drop_eq_nil_of_le hlen, List.append_nil]

/-- Witness for C10 on a fresh (empty-header) sheet with
`max_comment_pages = 0`. -/
theorem C10_header_min_one_comment_col_witness :
    ensure_body_comment_headers [] 0 = headerTarget 0
    ∧ headerTarget 0
        = headerBase ++ bodyHeaders ++ ["コメント数"] ++ commentPageHeaders 0
    ∧ (commentPageHeaders 0).length = max 1 0
    ∧ 1 ≤ (commentPageHeaders 0).length :=
  C10_header_min_one_comment_col [] 0 (by simp)
